import Mathlib

/-!
Verification of the NeuralNotes Whisper transcription engine
(`ai_pipeline/transcription/whisper_engine.py`).

The engine is shallowly embedded: Python strings are `List Char`, the file
system is an explicit state value, calls into the external Whisper model and
the pydub decoder are parameters, and exceptions are explicit error values.
Wall-clock timing (`processing_time_s`, log output) is not modelled.
-/

namespace NeuralNotes

/-- Python strings are modelled as lists of characters. -/
abbrev Str := List Char

/-- The whitespace test used by Python's `str.split()` / `str.strip()`
(ASCII whitespace; Unicode-only whitespace characters are not modelled). -/
def pyIsSpace (c : Char) : Bool :=
  c = ' ' || c = '\t' || c = '\n' || c = '\r' || c = '\x0b' || c = '\x0c'

/-- Accumulator worker for Python's `str.split()` with no separator:
runs of non-whitespace characters become tokens, whitespace is discarded. -/
def pySplitAux : List Char → List Char → List (List Char)
  | [], acc => if acc.isEmpty then [] else [acc.reverse]
  | c :: cs, acc =>
    if pyIsSpace c then
      if acc.isEmpty then pySplitAux cs [] else acc.reverse :: pySplitAux cs []
    else pySplitAux cs (c :: acc)

/-- Python's `s.split()` (whitespace-delimited tokens, empties dropped). -/
def pySplit (s : Str) : List Str := pySplitAux s []

/-- Python's `s.strip()`: remove leading and trailing whitespace. -/
def pyStrip (s : Str) : Str :=
  (s.dropWhile pyIsSpace).rdropWhile pyIsSpace

/-- Python's `round` tie-breaking: round half to even (floats' binary
representation error is not modelled; values are exact rationals). -/
def roundHalfEven (x : ℚ) : ℤ :=
  if Int.fract x < 1/2 then ⌊x⌋
  else if 1/2 < Int.fract x then ⌊x⌋ + 1
  else if ⌊x⌋ % 2 = 0 then ⌊x⌋ else ⌊x⌋ + 1

/-- Python's `round(x, 2)`. -/
def pyRound2 (x : ℚ) : ℚ := (roundHalfEven (x * 100) : ℚ) / 100

/-- `os.path.basename` (POSIX): the part after the last separator. -/
def basename (p : Str) : Str :=
  (p.reverse.takeWhile (fun c => c ≠ '/')).reverse

/-- `os.path.splitext` on a separator-free name: split at the last dot,
unless every character before that dot is itself a dot (so names that are
all leading dots, like `.bashrc`, have no extension). `rdropWhile` keeps the
part of the name up to and including the last dot, `rtakeWhile` the part
after it. -/
def splitext (b : Str) : Str × Str :=
  if (b.rdropWhile (fun c => decide (c ≠ '.'))).isEmpty then (b, [])
  else if (b.rdropWhile (fun c => decide (c ≠ '.'))).dropLast.all
      (fun c => c = '.') then (b, [])
  else ((b.rdropWhile (fun c => decide (c ≠ '.'))).dropLast,
    '.' :: b.rtakeWhile (fun c => decide (c ≠ '.')))

/-- `os.path.join dir name` for a `name` that does not start with `/`. -/
def joinPath (dir name : Str) : Str :=
  if dir = [] then name
  else if dir.getLast? = some '/' then dir ++ name
  else dir ++ '/' :: name

-- ## Lemmas about the Python string helpers

theorem rdropWhile_append_rtakeWhile {α : Type} (p : α → Bool) (l : List α) :
    l.rdropWhile p ++ l.rtakeWhile p = l := by
  rw [List.rdropWhile, List.rtakeWhile, ← List.reverse_append,
    List.takeWhile_append_dropWhile, List.reverse_reverse]

theorem pySplitAux_all_space {ws : List Char} (h : ∀ c ∈ ws, pyIsSpace c)
    (acc : List Char) :
    pySplitAux ws acc = if acc.isEmpty then [] else [acc.reverse] := by
  induction ws generalizing acc with
  | nil => rfl
  | cons w ws ih =>
    have hw : pyIsSpace w := h w (List.mem_cons_self _ _)
    have hws : ∀ c ∈ ws, pyIsSpace c := fun c hc => h c (List.mem_cons_of_mem _ hc)
    by_cases ha : acc.isEmpty
    · simp [pySplitAux, hw, ha, ih hws]
    · simp [pySplitAux, hw, ha, ih hws]

theorem pySplitAux_append_space {ws : List Char} (h : ∀ c ∈ ws, pyIsSpace c)
    (s : List Char) (acc : List Char) :
    pySplitAux (s ++ ws) acc = pySplitAux s acc := by
  induction s generalizing acc with
  | nil =>
    rw [List.nil_append, pySplitAux_all_space h acc]
    rfl
  | cons c cs ih =>
    by_cases hc : pyIsSpace c
    · by_cases ha : acc.isEmpty
      · simp [pySplitAux, hc, ha, ih]
      · simp [pySplitAux, hc, ha, ih]
    · simp [pySplitAux, hc, ih]

theorem pySplitAux_dropWhile (s : List Char) :
    pySplitAux (s.dropWhile pyIsSpace) [] = pySplitAux s [] := by
  induction s with
  | nil => rfl
  | cons c cs ih =>
    by_cases hc : pyIsSpace c
    · simpa [pySplitAux, List.dropWhile_cons, hc] using ih
    · simp [pySplitAux, List.dropWhile_cons, hc]

/-- Stripping leading/trailing whitespace does not change the tokens of
`split()`. -/
theorem pySplit_pyStrip (s : Str) : pySplit (pyStrip s) = pySplit s := by
  unfold pySplit pyStrip
  have h1 : ∀ c ∈ (s.dropWhile pyIsSpace).rtakeWhile pyIsSpace, pyIsSpace c :=
    fun c hc => List.mem_rtakeWhile_imp hc
  have h2 := pySplitAux_append_space h1
      ((s.dropWhile pyIsSpace).rdropWhile pyIsSpace) []
  rw [rdropWhile_append_rtakeWhile] at h2
  exact h2.symm.trans (pySplitAux_dropWhile s)

-- ## Data model (`backend/config/settings.py`, `whisper_engine.py`)

/-- The configuration fields the engine reads (`backend/config/settings.py`,
values may be overridden by the environment, so theorems quantify over them). -/
structure Settings where
  WHISPER_MODEL : Str
  AUDIO_OUTPUT_DIR : Str
deriving DecidableEq

/-- The defaults from `settings.py`. -/
def defaultSettings : Settings :=
  { WHISPER_MODEL := "base".toList, AUDIO_OUTPUT_DIR := "./temp/processed".toList }

/-- An audio payload as pydub sees it: channel count, sample rate, and an
abstract identifier for the recorded samples. -/
structure Audio where
  channels : Nat
  frame_rate : Nat
  data : Nat
deriving DecidableEq

/-- A file on disk: either decodable audio or bytes pydub rejects. -/
inductive FileData where
  | audio (a : Audio)
  | undecodable (bytes : Nat)
deriving DecidableEq

/-- First-match association-list lookup (later writes shadow earlier ones). -/
def lookupFile : List (Str × FileData) → Str → Option FileData
  | [], _ => none
  | (q, d) :: rest, p => if p = q then some d else lookupFile rest p

/-- The file-system state visible to the engine: files and directories. -/
structure FS where
  files : List (Str × FileData)
  dirs : List Str
deriving DecidableEq

def FS.read (fs : FS) (p : Str) : Option FileData := lookupFile fs.files p

/-- `os.path.exists` restricted to files. -/
def FS.pathExists (fs : FS) (p : Str) : Bool := (fs.read p).isSome

/-- Writing a file (pydub `export` overwrites an existing file). -/
def FS.write (fs : FS) (p : Str) (d : FileData) : FS :=
  { fs with files := (p, d) :: fs.files }

/-- `os.remove`. -/
def FS.remove (fs : FS) (p : Str) : FS :=
  { fs with files := fs.files.filter (fun e => decide (e.1 ≠ p)) }

/-- `os.makedirs _ exist_ok:=True`. -/
def FS.mkdir (fs : FS) (p : Str) : FS :=
  { fs with dirs := if p ∈ fs.dirs then fs.dirs else p :: fs.dirs }

/-- The exceptions the embedded code can raise. -/
inductive Err where
  | decodeError
  | inferenceError
  | osError
deriving DecidableEq

/-- Engine state (`WhisperEngine.__init__`): the lazily created model handle
(`ℕ` stands for an abstract in-memory handle) and the configured name. -/
structure WhisperEngine where
  model : Option Nat
  model_name : Str
deriving DecidableEq

/-- `WhisperEngine.__init__` reading `settings.WHISPER_MODEL`. -/
def WhisperEngine.init (s : Settings) : WhisperEngine :=
  { model := none, model_name := s.WHISPER_MODEL }

/-- `WhisperEngine.load_model`: load only when the handle is absent; `loader`
stands for `whisper.load_model`. Returns the handle and the new state. -/
def load_model (loader : Str → Nat) (e : WhisperEngine) : Nat × WhisperEngine :=
  match e.model with
  | some m => (m, e)
  | none => (loader e.model_name, { e with model := some (loader e.model_name) })

/-- `n` successive `load_model` calls. `loaders` gives the (possibly
different) in-memory handle `whisper.load_model` would produce at each call;
returns the handles handed back, the final state, and how many times the
loading work inside the `if` actually ran. -/
def runLoads (loaders : Nat → Str → Nat) :
    Nat → WhisperEngine → List Nat × WhisperEngine × Nat
  | 0, e => ([], e, 0)
  | n + 1, e =>
    let work := if e.model.isNone then 1 else 0
    let p := load_model (loaders n) e
    let rest := runLoads loaders n p.2
    (p.1 :: rest.1, rest.2.1, work + rest.2.2)

/-- One segment of the external model's output dictionary. -/
structure Segment where
  id : ℤ
  text : Str
  start : ℚ
  «end» : ℚ
deriving DecidableEq

/-- The external model's output dictionary (`result` in `transcribe`). -/
structure WhisperResult where
  text : Str
  segments : List Segment
  language : Option Str
deriving DecidableEq

/-- One formatted utterance of the returned transcript. -/
structure Utterance where
  id : ℤ
  text : Str
  start_time : ℚ
  end_time : ℚ
  speaker : Str
deriving DecidableEq

/-- The dictionary `transcribe` returns (`processing_time_s` is wall-clock
time and is not modelled). -/
structure TranscriptionResult where
  full_text : Str
  utterances : List Utterance
  language : Str
  duration_seconds : ℚ
  word_count : Nat
  model_used : Str
deriving DecidableEq

/-- The derived output path of `convert_to_wav` (lines 66-67). -/
def output_path_for (s : Settings) (input_path : Str) : Str :=
  joinPath s.AUDIO_OUTPUT_DIR
    ((splitext (basename input_path)).1 ++ ("_converted.wav").toList)

/-- `WhisperEngine.convert_to_wav`: derive the output path, create the output
directory, decode the input, force mono 16 kHz, export; a decode failure
propagates. Returns the outcome together with the file system. -/
def convert_to_wav (s : Settings) (fs : FS) (input_path : Str) :
    Except Err Str × FS :=
  match (fs.mkdir s.AUDIO_OUTPUT_DIR).read input_path with
  | none => (.error .decodeError, fs.mkdir s.AUDIO_OUTPUT_DIR)
  | some (.undecodable _) => (.error .decodeError, fs.mkdir s.AUDIO_OUTPUT_DIR)
  | some (.audio a) =>
    (.ok (output_path_for s input_path),
      (fs.mkdir s.AUDIO_OUTPUT_DIR).write (output_path_for s input_path)
        (.audio { { a with channels := 1 } with frame_rate := 16000 }))

/-- Outcome of a `transcribe` call: a result or a propagated exception. -/
inductive TOutcome where
  | ok (r : TranscriptionResult)
  | err (e : Err)
deriving DecidableEq

/-- `WhisperEngine.transcribe`. `infer` is the outcome of the external
`model.transcribe` call on the converted file (an oracle value, since the
model is an external collaborator); the intermediate file is removed only
after a successful inference, exactly as in the source (lines 108-120). -/
def transcribe (s : Settings) (loader : Str → Nat)
    (infer : Except Err WhisperResult)
    (eng : WhisperEngine) (fs : FS) (audio_path : Str) :
    TOutcome × WhisperEngine × FS :=
  let eng1 := (load_model loader eng).2
  match convert_to_wav s fs audio_path with
  | (.error e, fs1) => (.err e, eng1, fs1)
  | (.ok converted_path, fs1) =>
    match infer with
    | .error e => (.err e, eng1, fs1)
    | .ok result =>
      let fs2 := if fs1.pathExists converted_path then fs1.remove converted_path else fs1
      let utterances := result.segments.map (fun seg =>
        { id := seg.id
          text := pyStrip seg.text
          start_time := pyRound2 seg.start
          end_time := pyRound2 seg.«end»
          speaker := ("Speaker 1").toList : Utterance })
      let tr : TranscriptionResult :=
        { full_text := pyStrip result.text
          utterances := utterances
          language := result.language.getD (("en").toList)
          duration_seconds :=
            match utterances.getLast? with
            | some u => u.end_time
            | none => 0
          word_count := (pySplit result.text).length
          model_used := eng1.model_name }
      (.ok tr, eng1, fs2)

/-- `WhisperEngine.cleanup`: try to delete; the `removeFails` oracle says
whether `os.remove` raises; any exception is caught and logged, never
propagated. -/
def cleanup (fs : FS) (removeFails : Bool) (file_path : Str) : Except Err FS :=
  let body : Except Err FS :=
    if fs.pathExists file_path then
      if removeFails then .error .osError else .ok (fs.remove file_path)
    else .ok fs
  match body with
  | .ok fs1 => .ok fs1
  | .error _ => .ok fs

-- ## File-system lemmas

theorem FS.read_write_self (fs : FS) (p : Str) (d : FileData) :
    (fs.write p d).read p = some d := by
  simp [FS.write, FS.read, lookupFile]

theorem FS.read_write_ne (fs : FS) (p q : Str) (d : FileData) (h : q ≠ p) :
    (fs.write p d).read q = fs.read q := by
  simp [FS.write, FS.read, lookupFile, h]

theorem lookupFile_filter_ne (l : List (Str × FileData)) (p : Str) :
    lookupFile (l.filter (fun e => decide (e.1 ≠ p))) p = none := by
  induction l with
  | nil => rfl
  | cons e rest ih =>
    obtain ⟨q, d⟩ := e
    rw [List.filter_cons]
    by_cases he : q = p
    · rw [if_neg (by simpa using he)]
      exact ih
    · rw [if_pos (by simpa using he), lookupFile,
        if_neg (fun hpq => he hpq.symm)]
      exact ih

theorem lookupFile_filter_other (l : List (Str × FileData)) (p q : Str) (h : q ≠ p) :
    lookupFile (l.filter (fun e => decide (e.1 ≠ p))) q = lookupFile l q := by
  induction l with
  | nil => rfl
  | cons e rest ih =>
    obtain ⟨a, d⟩ := e
    rw [List.filter_cons]
    by_cases ha : a = p
    · rw [if_neg (by simpa using ha), lookupFile,
        if_neg (fun hq => h (hq.trans ha))]
      exact ih
    · rw [if_pos (by simpa using ha), lookupFile, lookupFile]
      by_cases hq : q = a
      · rw [if_pos hq, if_pos hq]
      · rw [if_neg hq, if_neg hq]
        exact ih

theorem FS.read_remove_self (fs : FS) (p : Str) : (fs.remove p).read p = none := by
  simpa [FS.remove, FS.read] using lookupFile_filter_ne fs.files p

theorem FS.read_remove_ne (fs : FS) (p q : Str) (h : q ≠ p) :
    (fs.remove p).read q = fs.read q := by
  simpa [FS.remove, FS.read] using lookupFile_filter_other fs.files p q h

theorem FS.read_mkdir (fs : FS) (d p : Str) : (fs.mkdir d).read p = fs.read p := rfl

theorem FS.mem_mkdir_dirs (fs : FS) (d q : Str) :
    q ∈ (fs.mkdir d).dirs ↔ q ∈ fs.dirs ∨ q = d := by
  by_cases h : d ∈ fs.dirs
  · simp only [FS.mkdir, if_pos h]
    constructor
    · exact fun hq => Or.inl hq
    · rintro (hq | rfl)
      · exact hq
      · exact h
  · simp only [FS.mkdir, if_neg h, List.mem_cons]
    tauto

-- ## Path lemmas

theorem takeWhile_append_all {α : Type} (p : α → Bool) (xs ys : List α)
    (h : ∀ c ∈ xs, p c) : (xs ++ ys).takeWhile p = xs ++ ys.takeWhile p := by
  induction xs with
  | nil => rfl
  | cons x xs ih =>
    have hx : p x := h x (List.mem_cons_self _ _)
    simp [List.takeWhile_cons, hx,
      ih (fun c hc => h c (List.mem_cons_of_mem _ hc))]

theorem takeWhile_all {α : Type} (p : α → Bool) (xs : List α)
    (h : ∀ c ∈ xs, p c) : xs.takeWhile p = xs := by
  have := takeWhile_append_all p xs [] h
  simpa using this

theorem basename_no_sep (p : Str) : ∀ c ∈ basename p, c ≠ '/' := by
  intro c hc
  have hc' : c ∈ p.reverse.takeWhile (fun c => decide (c ≠ '/')) := by
    simpa [basename] using hc
  have hpred := List.mem_takeWhile_imp hc'
  simpa using hpred

theorem basename_of_no_sep (name : Str) (h : ∀ c ∈ name, c ≠ '/') :
    basename name = name := by
  have hname : name.reverse.takeWhile (fun c => decide (c ≠ '/')) = name.reverse := by
    refine takeWhile_all _ _ ?_
    intro c hc
    simpa using h c (List.mem_reverse.mp hc)
  unfold basename
  rw [hname, List.reverse_reverse]

theorem basename_join (dir name : Str) (h : ∀ c ∈ name, c ≠ '/') :
    basename (joinPath dir name) = name := by
  have hall : ∀ c ∈ name.reverse, (fun c => decide (c ≠ '/')) c = true := by
    intro c hc
    simpa using h c (List.mem_reverse.mp hc)
  unfold joinPath
  by_cases hnil : dir = []
  · rw [if_pos hnil]
    exact basename_of_no_sep name h
  · rw [if_neg hnil]
    by_cases hlast : dir.getLast? = some '/'
    · rw [if_pos hlast]
      have hhead : dir.reverse.head? = some '/' := by
        rw [List.head?_reverse, hlast]
      obtain ⟨tail, htail⟩ : ∃ tail, dir.reverse = '/' :: tail := by
        cases hrev : dir.reverse with
        | nil => rw [hrev] at hhead; cases hhead
        | cons a t =>
          rw [hrev] at hhead
          injection hhead with ha
          exact ⟨t, by rw [ha]⟩
      unfold basename
      rw [List.reverse_append, htail,
        takeWhile_append_all _ name.reverse _ hall, List.takeWhile_cons,
        if_neg (by decide)]
      rw [List.append_nil, List.reverse_reverse]
    · rw [if_neg hlast]
      unfold basename
      rw [List.reverse_append, List.reverse_cons, List.append_assoc,
        takeWhile_append_all _ name.reverse _ hall]
      rw [List.singleton_append, List.takeWhile_cons, if_neg (by decide),
        List.append_nil, List.reverse_reverse]

theorem splitext_append (b : Str) : (splitext b).1 ++ (splitext b).2 = b := by
  unfold splitext
  split_ifs with h1 h2
  · simp
  · simp
  · have hne : b.rdropWhile (fun c => decide (c ≠ '.')) ≠ [] := by
      intro hab
      rw [List.isEmpty_iff] at h1
      exact h1 hab
    have hlast : (b.rdropWhile (fun c => decide (c ≠ '.'))).getLast hne = '.' := by
      have := List.rdropWhile_last_not (p := fun c => decide (c ≠ '.')) (l := b) hne
      simpa using this
    show (b.rdropWhile (fun c => decide (c ≠ '.'))).dropLast ++
        '.' :: b.rtakeWhile (fun c => decide (c ≠ '.')) = b
    calc (b.rdropWhile (fun c => decide (c ≠ '.'))).dropLast ++
            '.' :: b.rtakeWhile (fun c => decide (c ≠ '.'))
        = ((b.rdropWhile (fun c => decide (c ≠ '.'))).dropLast ++
            [(b.rdropWhile (fun c => decide (c ≠ '.'))).getLast hne]) ++
            b.rtakeWhile (fun c => decide (c ≠ '.')) := by
          rw [hlast]
          simp
      _ = b.rdropWhile (fun c => decide (c ≠ '.')) ++
            b.rtakeWhile (fun c => decide (c ≠ '.')) := by
          rw [List.dropLast_append_getLast hne]
      _ = b := rdropWhile_append_rtakeWhile _ b

theorem splitext_snd_cases (b : Str) :
    (splitext b).2 = [] ∨ ∃ t, (splitext b).2 = '.' :: t := by
  unfold splitext
  split_ifs with h1 h2
  · left; rfl
  · left; rfl
  · right
    exact ⟨b.rtakeWhile (fun c => decide (c ≠ '.')), rfl⟩

/-- The stem of the input's basename contains no path separator. -/
theorem stem_no_sep (p : Str) : ∀ c ∈ (splitext (basename p)).1, c ≠ '/' := by
  intro c hc
  refine basename_no_sep p c ?_
  rw [← splitext_append (basename p)]
  exact List.mem_append_left _ hc

/-- The literal suffix appended by `convert_to_wav`. -/
theorem converted_suffix_no_sep : ∀ c ∈ ("_converted.wav").toList, c ≠ '/' := by
  decide

/-- The derived output path of `convert_to_wav` is never the input path:
the output basename ends in `_converted.wav`, which no `splitext` extension
can equal (an extension is empty or starts with a dot). -/
theorem input_ne_output (s : Settings) (input : Str) :
    input ≠ output_path_for s input := by
  intro heq
  have hname : ∀ c ∈ (splitext (basename input)).1 ++ ("_converted.wav").toList,
      c ≠ '/' := by
    intro c hc
    rcases List.mem_append.mp hc with h | h
    · exact stem_no_sep input c h
    · exact converted_suffix_no_sep c h
  have hbout : basename (output_path_for s input) =
      (splitext (basename input)).1 ++ ("_converted.wav").toList :=
    basename_join _ _ hname
  have hbin : basename input =
      (splitext (basename input)).1 ++ (splitext (basename input)).2 :=
    (splitext_append (basename input)).symm
  have hb : basename input = basename (output_path_for s input) := by rw [← heq]
  have hext : (splitext (basename input)).2 = ("_converted.wav").toList := by
    have := hbin.symm.trans (hb.trans hbout)
    exact List.append_cancel_left this
  rcases splitext_snd_cases (basename input) with h0 | ⟨t, ht⟩
  · rw [h0] at hext
    exact absurd hext.symm (by decide)
  · rw [ht] at hext
    have hh := congrArg (fun l => l.head?) hext
    simp at hh

-- ## Rounding lemmas

theorem roundHalfEven_ge_floor (x : ℚ) : ⌊x⌋ ≤ roundHalfEven x := by
  unfold roundHalfEven
  split_ifs <;> omega

theorem roundHalfEven_le_floor_add_one (x : ℚ) : roundHalfEven x ≤ ⌊x⌋ + 1 := by
  unfold roundHalfEven
  split_ifs <;> omega

theorem roundHalfEven_of_lt {x : ℚ} (h : Int.fract x < 1/2) :
    roundHalfEven x = ⌊x⌋ := by
  rw [roundHalfEven, if_pos h]

theorem roundHalfEven_of_gt {x : ℚ} (h : 1/2 < Int.fract x) :
    roundHalfEven x = ⌊x⌋ + 1 := by
  rw [roundHalfEven, if_neg (by linarith), if_pos h]

theorem roundHalfEven_of_eq {x : ℚ} (h : Int.fract x = 1/2) :
    roundHalfEven x = if ⌊x⌋ % 2 = 0 then ⌊x⌋ else ⌊x⌋ + 1 := by
  rw [roundHalfEven, if_neg (by rw [h]; exact lt_irrefl _),
    if_neg (by rw [h]; exact lt_irrefl _)]

theorem roundHalfEven_mono {x y : ℚ} (h : x ≤ y) :
    roundHalfEven x ≤ roundHalfEven y := by
  have hf : ⌊x⌋ ≤ ⌊y⌋ := Int.floor_mono h
  rcases lt_or_eq_of_le hf with hlt | hfe
  · have h1 := roundHalfEven_le_floor_add_one x
    have h2 := roundHalfEven_ge_floor y
    omega
  · have hfrac : Int.fract x ≤ Int.fract y := by
      unfold Int.fract
      rw [← hfe]
      exact sub_le_sub_right h _
    rcases lt_trichotomy (Int.fract x) (1/2) with hx | hx | hx
    · rw [roundHalfEven_of_lt hx, hfe]
      exact roundHalfEven_ge_floor y
    · rcases lt_trichotomy (Int.fract y) (1/2) with hy | hy | hy
      · exact absurd (lt_of_le_of_lt hfrac hy) (by rw [hx]; exact lt_irrefl _)
      · rw [roundHalfEven_of_eq hx, roundHalfEven_of_eq hy, hfe]
      · rw [roundHalfEven_of_eq hx, roundHalfEven_of_gt hy, hfe]
        split_ifs <;> omega
    · have hy : 1/2 < Int.fract y := lt_of_lt_of_le hx hfrac
      rw [roundHalfEven_of_gt hx, roundHalfEven_of_gt hy, hfe]

theorem pyRound2_mono {x y : ℚ} (h : x ≤ y) : pyRound2 x ≤ pyRound2 y := by
  unfold pyRound2
  have hm : roundHalfEven (x * 100) ≤ roundHalfEven (y * 100) :=
    roundHalfEven_mono (by linarith)
  have hc : ((roundHalfEven (x * 100) : ℤ) : ℚ) ≤ ((roundHalfEven (y * 100) : ℤ) : ℚ) :=
    Int.cast_le.mpr hm
  exact div_le_div_of_nonneg_right hc (by norm_num) |>.trans_eq rfl

/-- `pyRound2` always produces an integer multiple of `1/100`: "rounded to
exactly two decimal places". -/
theorem pyRound2_two_decimals (x : ℚ) : ∃ n : ℤ, pyRound2 x = n / 100 :=
  ⟨roundHalfEven (x * 100), rfl⟩

-- ## Inversion lemmas for the engine operations

theorem convert_ok_inv (s : Settings) (fs : FS) (input cp : Str) (fs1 : FS)
    (h : convert_to_wav s fs input = (.ok cp, fs1)) :
    cp = output_path_for s input
    ∧ ∃ a : Audio, fs.read input = some (.audio a)
      ∧ fs1 = (fs.mkdir s.AUDIO_OUTPUT_DIR).write (output_path_for s input)
          (.audio { channels := 1, frame_rate := 16000, data := a.data }) := by
  unfold convert_to_wav at h
  rcases hr : (fs.mkdir s.AUDIO_OUTPUT_DIR).read input with _ | fd
  · rw [hr] at h
    simp at h
  · rw [hr] at h
    cases fd with
    | undecodable b => simp at h
    | audio a =>
      simp only [Prod.mk.injEq, Except.ok.injEq] at h
      obtain ⟨hcp, hfs⟩ := h
      refine ⟨hcp.symm, a, ?_, hfs.symm⟩
      rw [← FS.read_mkdir fs s.AUDIO_OUTPUT_DIR input]
      exact hr

theorem transcribe_engine_eq (s : Settings) (loader : Str → Nat)
    (infer : Except Err WhisperResult) (eng : WhisperEngine) (fs : FS)
    (path : Str) :
    (transcribe s loader infer eng fs path).2.1 = (load_model loader eng).2 := by
  unfold transcribe
  rcases hc : convert_to_wav s fs path with ⟨res, fs1⟩
  cases res with
  | error e => rfl
  | ok cp => cases infer <;> rfl

theorem transcribe_error_no_ok (s : Settings) (loader : Str → Nat) (e : Err)
    (eng : WhisperEngine) (fs : FS) (path : Str) (r : TranscriptionResult)
    (eng' : WhisperEngine) (fs' : FS)
    (h : transcribe s loader (.error e) eng fs path = (.ok r, eng', fs')) :
    False := by
  unfold transcribe at h
  rcases hc : convert_to_wav s fs path with ⟨res, fs1⟩
  rw [hc] at h
  cases res <;> simp at h

theorem transcribe_ok_inv (s : Settings) (loader : Str → Nat)
    (w : WhisperResult) (eng : WhisperEngine) (fs : FS) (path : Str)
    (r : TranscriptionResult) (eng' : WhisperEngine) (fs' : FS)
    (h : transcribe s loader (.ok w) eng fs path = (.ok r, eng', fs')) :
    r.full_text = pyStrip w.text
    ∧ r.utterances = w.segments.map (fun seg =>
        { id := seg.id
          text := pyStrip seg.text
          start_time := pyRound2 seg.start
          end_time := pyRound2 seg.«end»
          speaker := ("Speaker 1").toList })
    ∧ r.language = w.language.getD (("en").toList)
    ∧ r.duration_seconds =
        (match r.utterances.getLast? with
          | some u => u.end_time
          | none => 0)
    ∧ r.word_count = (pySplit w.text).length
    ∧ eng' = (load_model loader eng).2
    ∧ ∃ fs1, convert_to_wav s fs path = (.ok (output_path_for s path), fs1)
        ∧ fs' = (if fs1.pathExists (output_path_for s path) then
            fs1.remove (output_path_for s path) else fs1) := by
  unfold transcribe at h
  rcases hc : convert_to_wav s fs path with ⟨res, fs1⟩
  rw [hc] at h
  cases res with
  | error e => simp at h
  | ok cp =>
    obtain ⟨hcp, -⟩ := convert_ok_inv s fs path cp fs1 hc
    subst hcp
    simp only [Prod.mk.injEq, TOutcome.ok.injEq] at h
    obtain ⟨hr, heng, hfs⟩ := h
    subst hr
    refine ⟨rfl, rfl, rfl, ?_, rfl, heng.symm, fs1, rfl, hfs.symm⟩
    rfl

/-- Once the handle is present, repeated `load_model` calls hand it back
unchanged and perform no loading work. -/
theorem runLoads_loaded (loaders : Nat → Str → Nat) (n : Nat)
    (e : WhisperEngine) (m : Nat) (hm : e.model = some m) :
    runLoads loaders n e = (List.replicate n m, e, 0) := by
  induction n with
  | zero => rfl
  | succ k ih =>
    have hload : load_model (loaders k) e = (m, e) := by
      unfold load_model
      rw [hm]
    simp [runLoads, hload, ih, hm, List.replicate_succ]

/-- A cold engine's first batch of `load_model` calls does the work exactly
once and hands out the handle created by the first call throughout. -/
theorem runLoads_cold (loaders : Nat → Str → Nat) (k : Nat)
    (e : WhisperEngine) (hm : e.model = none) :
    runLoads loaders (k + 1) e =
      (loaders k e.model_name :: List.replicate k (loaders k e.model_name),
        { e with model := some (loaders k e.model_name) }, 1) := by
  have hload : load_model (loaders k) e =
      (loaders k e.model_name,
        { e with model := some (loaders k e.model_name) }) := by
    unfold load_model
    rw [hm]
  have hrest := runLoads_loaded loaders k
    { e with model := some (loaders k e.model_name) }
    (loaders k e.model_name) rfl
  simp [runLoads, hload, hrest, hm]

-- ## Concrete inputs shared by the witnesses

/-- A loading collaborator giving a different handle at each call. -/
def exLoaders : Nat → Str → Nat := fun i _ => i + 3

def exLoader : Str → Nat := fun _ => 7

def exEngine : WhisperEngine := WhisperEngine.init defaultSettings

def exFS : FS :=
  { files := [(("m.mp3").toList,
      .audio { channels := 2, frame_rate := 44100, data := 5 })]
    dirs := [] }

def exPath : Str := ("m.mp3").toList

/-- A model output with two segments, like the 90-second scenario of the
spec. -/
def exW : WhisperResult :=
  { text := (" Hello everyone Let us begin ").toList
    segments :=
      [ { id := 0, text := (" Hello everyone ").toList, start := 0, «end» := 40 }
      , { id := 1, text := (" Let us begin ").toList, start := 40, «end» := 90 } ]
    language := some (("en").toList) }

def exRun : TOutcome × WhisperEngine × FS :=
  transcribe defaultSettings exLoader (.ok exW) exEngine exFS exPath

def exR : TranscriptionResult :=
  match exRun.1 with
  | .ok r => r
  | .err _ =>
    { full_text := [], utterances := [], language := []
      duration_seconds := 0, word_count := 0, model_used := [] }

-- ## The claims

/-- C1: for every result returned by `transcribe`, `duration_seconds` equals
the `end_time` of the last utterance when the utterance sequence is
non-empty, and equals `0` when the model reports no segments. -/
theorem transcribe_duration_seconds_spec (s : Settings) (loader : Str → Nat)
    (w : WhisperResult) (eng : WhisperEngine) (fs : FS) (path : Str)
    (r : TranscriptionResult) (eng' : WhisperEngine) (fs' : FS)
    (h : transcribe s loader (.ok w) eng fs path = (.ok r, eng', fs')) :
    (w.segments = [] → r.utterances = [] ∧ r.duration_seconds = 0)
    ∧ ∀ hne : r.utterances ≠ [],
        r.duration_seconds = (r.utterances.getLast hne).end_time := by
  obtain ⟨-, hu, -, hd, -⟩ := transcribe_ok_inv s loader w eng fs path r eng' fs' h
  constructor
  · intro hseg
    have hue : r.utterances = [] := by rw [hu, hseg]; rfl
    refine ⟨hue, ?_⟩
    rw [hd, hue]
    rfl
  · intro hne
    rw [hd, List.getLast?_eq_getLast_of_ne_nil hne]

/-- C1 witness: on the two-segment example the duration is the last
utterance's end time. -/
theorem transcribe_duration_seconds_spec_witness :
    exR.duration_seconds = (exR.utterances.getLast (by decide)).end_time :=
  (transcribe_duration_seconds_spec defaultSettings exLoader exW exEngine exFS
    exPath exR exRun.2.1 exRun.2.2 rfl).2 (by decide)

/-- C2: for every result returned by `transcribe`, `word_count` equals the
number of whitespace-delimited tokens of `full_text` (the code counts tokens
of the unstripped model text, but stripping does not change the count). -/
theorem transcribe_word_count_spec (s : Settings) (loader : Str → Nat)
    (w : WhisperResult) (eng : WhisperEngine) (fs : FS) (path : Str)
    (r : TranscriptionResult) (eng' : WhisperEngine) (fs' : FS)
    (h : transcribe s loader (.ok w) eng fs path = (.ok r, eng', fs')) :
    r.word_count = (pySplit r.full_text).length := by
  obtain ⟨hft, -, -, -, hwc, -⟩ :=
    transcribe_ok_inv s loader w eng fs path r eng' fs' h
  rw [hwc, hft, pySplit_pyStrip]

/-- C2 witness: on the example, `word_count` is the token count of the
stripped full text. -/
theorem transcribe_word_count_spec_witness :
    exR.word_count = (pySplit exR.full_text).length :=
  transcribe_word_count_spec defaultSettings exLoader exW exEngine exFS exPath
    exR exRun.2.1 exRun.2.2 rfl

/-- C3: `load_model` called `N` times performs the loading work at most
once and hands back one identical handle; and once the engine's handle is
non-empty, neither `load_model` nor `transcribe` (the only operations that
touch it) ever replaces it. -/
theorem load_model_at_most_once (loaders : Nat → Str → Nat) (n : Nat)
    (e : WhisperEngine) :
    (runLoads loaders n e).2.2 ≤ 1
    ∧ (∀ x ∈ (runLoads loaders n e).1, ∀ y ∈ (runLoads loaders n e).1, x = y)
    ∧ (∀ m (loader : Str → Nat), e.model = some m →
        ((load_model loader e).2).model = some m)
    ∧ (∀ m (loader : Str → Nat) s infer fs path, e.model = some m →
        ((transcribe s loader infer e fs path).2.1).model = some m) := by
  have hpre : ∀ m (loader : Str → Nat), e.model = some m →
      ((load_model loader e).2).model = some m := by
    intro m loader hm
    unfold load_model
    rw [hm]
    exact hm
  refine ⟨?_, ?_, hpre, ?_⟩
  · rcases hm : e.model with _ | m
    · cases n with
      | zero => exact Nat.zero_le 1
      | succ k =>
        rw [runLoads_cold loaders k e hm]
    · rw [runLoads_loaded loaders n e m hm]
      exact Nat.zero_le 1
  · rcases hm : e.model with _ | m
    · cases n with
      | zero => intro x hx; cases hx
      | succ k =>
        rw [runLoads_cold loaders k e hm]
        intro x hx y hy
        simp only [List.mem_cons, List.mem_replicate] at hx hy
        rcases hx with hx | hxated
        · rcases hy with hy | hy
          · rw [hx, hy]
          · rw [hx, hy.2]
        · rcases hy with hy | hy
          · rw [hxated.2, hy]
          · rw [hxated.2, hy.2]
    · rw [runLoads_loaded loaders n e m hm]
      intro x hx y hy
      simp only [List.mem_replicate] at hx hy
      rw [hx.2, hy.2]
  · intro m loader s infer fs path hm
    rw [transcribe_engine_eq]
    exact hpre m loader hm

/-- C3 witness: three loads from a fresh engine perform the work once, and a
warm engine's handle survives a further `load_model` call. -/
theorem load_model_at_most_once_witness :
    (runLoads exLoaders 3 exEngine).2.2 ≤ 1
    ∧ ((load_model exLoader
        { model := some 7, model_name := ("base").toList }).2).model = some 7 :=
  ⟨(load_model_at_most_once exLoaders 3 exEngine).1,
    (load_model_at_most_once exLoaders 3
      { model := some 7, model_name := ("base").toList }).2.2.1 7 exLoader rfl⟩

/-- The outcome of a `transcribe` call whose inference step fails, on the
shared example input. -/
def exRunFail : TOutcome × WhisperEngine × FS :=
  transcribe defaultSettings exLoader (.error .inferenceError) exEngine exFS exPath

/-- C4 counterexample: on a concrete input whose inference step fails, the
normalized intermediate WAV file is still on disk after `transcribe`
returns, so cleanup does not happen on the failure path. -/
theorem transcribe_cleanup_counterexample :
    (exRunFail.2.2).pathExists (output_path_for defaultSettings exPath) = true := by
  rfl

/-- C4 (amended): the intermediate file is deleted after a successful
inference, but an inference failure propagates with the intermediate file
still on disk. -/
theorem transcribe_cleanup_success_only (s : Settings) (loader : Str → Nat)
    (eng : WhisperEngine) (fs : FS) (path : Str) :
    (∀ w r eng' fs',
      transcribe s loader (.ok w) eng fs path = (.ok r, eng', fs') →
      fs'.pathExists (output_path_for s path) = false)
    ∧ (∀ e err eng' fs' fs1,
      convert_to_wav s fs path = (.ok (output_path_for s path), fs1) →
      transcribe s loader (.error e) eng fs path = (.err err, eng', fs') →
      fs'.pathExists (output_path_for s path) = true) := by
  constructor
  · intro w r eng' fs' h
    obtain ⟨-, -, -, -, -, -, fs1, hconv, hfs⟩ :=
      transcribe_ok_inv s loader w eng fs path r eng' fs' h
    rw [hfs]
    by_cases hex : fs1.pathExists (output_path_for s path) = true
    · rw [if_pos hex]
      unfold FS.pathExists
      rw [FS.read_remove_self]
      rfl
    · rw [if_neg hex]
      simpa using hex
  · intro e err eng' fs' fs1 hconv h
    obtain ⟨-, a, -, hfs1⟩ :=
      convert_ok_inv s fs path (output_path_for s path) fs1 hconv
    unfold transcribe at h
    rw [hconv] at h
    simp only [Prod.mk.injEq, TOutcome.err.injEq] at h
    obtain ⟨-, -, hfs⟩ := h
    rw [← hfs, hfs1]
    unfold FS.pathExists
    rw [FS.read_write_self]
    rfl

/-- C4 witness: on the example, a successful run leaves no intermediate
file and a failing run leaves one. -/
theorem transcribe_cleanup_success_only_witness :
    (exRun.2.2).pathExists (output_path_for defaultSettings exPath) = false
    ∧ (exRunFail.2.2).pathExists (output_path_for defaultSettings exPath) = true :=
  ⟨(transcribe_cleanup_success_only defaultSettings exLoader exEngine exFS
      exPath).1 exW exR exRun.2.1 exRun.2.2 rfl,
    (transcribe_cleanup_success_only defaultSettings exLoader exEngine exFS
      exPath).2 .inferenceError .inferenceError exRunFail.2.1 exRunFail.2.2
      (convert_to_wav defaultSettings exFS exPath).2 rfl rfl⟩

/-- C5: each utterance's times are the 2-decimal roundings of the
corresponding model segment's times (hence multiples of `1/100`), and a
segment with `start ≤ end` yields `start_time ≤ end_time`. -/
theorem transcribe_times_rounded (s : Settings) (loader : Str → Nat)
    (w : WhisperResult) (eng : WhisperEngine) (fs : FS) (path : Str)
    (r : TranscriptionResult) (eng' : WhisperEngine) (fs' : FS)
    (h : transcribe s loader (.ok w) eng fs path = (.ok r, eng', fs')) :
    List.Forall₂ (fun (seg : Segment) (u : Utterance) =>
      u.start_time = pyRound2 seg.start ∧ u.end_time = pyRound2 seg.«end»
      ∧ (∃ n : ℤ, u.start_time = n / 100) ∧ (∃ m : ℤ, u.end_time = m / 100)
      ∧ (seg.start ≤ seg.«end» → u.start_time ≤ u.end_time))
      w.segments r.utterances := by
  obtain ⟨-, hu, -⟩ := transcribe_ok_inv s loader w eng fs path r eng' fs' h
  rw [hu, List.forall₂_map_right_iff, List.forall₂_same]
  intro seg hseg
  exact ⟨rfl, rfl, pyRound2_two_decimals _, pyRound2_two_decimals _,
    fun hle => pyRound2_mono hle⟩

/-- C5 witness: the rounding properties hold of the two-segment example. -/
theorem transcribe_times_rounded_witness :
    List.Forall₂ (fun (seg : Segment) (u : Utterance) =>
      u.start_time = pyRound2 seg.start ∧ u.end_time = pyRound2 seg.«end»
      ∧ (∃ n : ℤ, u.start_time = n / 100) ∧ (∃ m : ℤ, u.end_time = m / 100)
      ∧ (seg.start ≤ seg.«end» → u.start_time ≤ u.end_time))
      exW.segments exR.utterances :=
  transcribe_times_rounded defaultSettings exLoader exW exEngine exFS exPath
    exR exRun.2.1 exRun.2.2 rfl

/-- C6: every utterance of every result carries the fixed placeholder
speaker label "Speaker 1", whatever the model output was. -/
theorem transcribe_speaker_placeholder (s : Settings) (loader : Str → Nat)
    (infer : Except Err WhisperResult) (eng : WhisperEngine) (fs : FS)
    (path : Str) (r : TranscriptionResult) (eng' : WhisperEngine) (fs' : FS)
    (h : transcribe s loader infer eng fs path = (.ok r, eng', fs')) :
    ∀ u ∈ r.utterances, u.speaker = ("Speaker 1").toList := by
  cases infer with
  | error e =>
    exact (transcribe_error_no_ok s loader e eng fs path r eng' fs' h).elim
  | ok w =>
    obtain ⟨-, hu, -⟩ := transcribe_ok_inv s loader w eng fs path r eng' fs' h
    rw [hu]
    intro u hmem
    obtain ⟨seg, -, rfl⟩ := List.mem_map.mp hmem
    rfl

/-- C6 witness: the last utterance of the example result carries the
placeholder label. -/
theorem transcribe_speaker_placeholder_witness :
    (exR.utterances.getLast (by decide)).speaker = ("Speaker 1").toList :=
  transcribe_speaker_placeholder defaultSettings exLoader (.ok exW) exEngine
    exFS exPath exR exRun.2.1 exRun.2.2 rfl _ (List.getLast_mem _)

/-- C7: `cleanup` never propagates a failure: it always returns normally,
and on a nonexistent path it returns with the file system unchanged. -/
theorem cleanup_never_propagates (fs : FS) (removeFails : Bool) (p : Str) :
    (∃ fs', cleanup fs removeFails p = .ok fs')
    ∧ (fs.pathExists p = false → cleanup fs removeFails p = .ok fs) := by
  constructor
  · by_cases he : fs.pathExists p = true
    · cases removeFails with
      | true => exact ⟨fs, by simp [cleanup, he]⟩
      | false => exact ⟨fs.remove p, by simp [cleanup, he]⟩
    · exact ⟨fs, by simp [cleanup, he]⟩
  · intro he
    simp [cleanup, he]

/-- C7 witness: deleting a nonexistent file under a failing `os.remove`
still returns normally. -/
theorem cleanup_never_propagates_witness :
    cleanup { files := [], dirs := [] } true (("x.wav").toList) =
      .ok { files := [], dirs := [] } :=
  (cleanup_never_propagates { files := [], dirs := [] } true
    (("x.wav").toList)).2 rfl

/-- C8: a successful `convert_to_wav` writes exactly one new file at the
derived output path (mono, 16 kHz), creates the output directory if absent,
and leaves every other file — in particular the input — untouched. -/
theorem convert_to_wav_frame (s : Settings) (fs : FS) (input cp : Str)
    (fs' : FS) (h : convert_to_wav s fs input = (.ok cp, fs')) :
    cp = output_path_for s input
    ∧ (∃ d : Nat, fs'.read cp =
        some (.audio { channels := 1, frame_rate := 16000, data := d }))
    ∧ (∀ q, q ≠ cp → fs'.read q = fs.read q)
    ∧ fs'.read input = fs.read input
    ∧ (∀ dir, dir ∈ fs'.dirs ↔ dir ∈ fs.dirs ∨ dir = s.AUDIO_OUTPUT_DIR) := by
  obtain ⟨hcp, a, hread, hfs⟩ := convert_ok_inv s fs input cp fs' h
  subst hcp
  refine ⟨rfl, ⟨a.data, ?_⟩, ?_, ?_, ?_⟩
  · rw [hfs, FS.read_write_self]
  · intro q hq
    rw [hfs, FS.read_write_ne _ _ _ _ hq, FS.read_mkdir]
  · rw [hfs, FS.read_write_ne _ _ _ _ (input_ne_output s input), FS.read_mkdir]
  · intro dir
    rw [hfs]
    exact FS.mem_mkdir_dirs fs s.AUDIO_OUTPUT_DIR dir

/-- C8 witness: on the example conversion the input file is unchanged and
the destination directory is exactly the new directory entry. -/
theorem convert_to_wav_frame_witness :
    ((convert_to_wav defaultSettings exFS exPath).2).read exPath =
      exFS.read exPath
    ∧ (defaultSettings.AUDIO_OUTPUT_DIR ∈
        ((convert_to_wav defaultSettings exFS exPath).2).dirs
        ↔ defaultSettings.AUDIO_OUTPUT_DIR ∈ exFS.dirs
          ∨ defaultSettings.AUDIO_OUTPUT_DIR = defaultSettings.AUDIO_OUTPUT_DIR) :=
  ⟨(convert_to_wav_frame defaultSettings exFS exPath
      (output_path_for defaultSettings exPath)
      ((convert_to_wav defaultSettings exFS exPath).2) rfl).2.2.2.1,
    (convert_to_wav_frame defaultSettings exFS exPath
      (output_path_for defaultSettings exPath)
      ((convert_to_wav defaultSettings exFS exPath).2) rfl).2.2.2.2
      defaultSettings.AUDIO_OUTPUT_DIR⟩

/-- C9: the result's `language` is the model's language code when present
and `"en"` when the model output has none. -/
theorem transcribe_language_spec (s : Settings) (loader : Str → Nat)
    (w : WhisperResult) (eng : WhisperEngine) (fs : FS) (path : Str)
    (r : TranscriptionResult) (eng' : WhisperEngine) (fs' : FS)
    (h : transcribe s loader (.ok w) eng fs path = (.ok r, eng', fs')) :
    (∀ l, w.language = some l → r.language = l)
    ∧ (w.language = none → r.language = ("en").toList) := by
  obtain ⟨-, -, hl, -⟩ := transcribe_ok_inv s loader w eng fs path r eng' fs' h
  constructor
  · intro l hsome
    rw [hl, hsome]
    rfl
  · intro hnone
    rw [hl, hnone]
    rfl

/-- C9 witness: the example model output reports "en" and the result
carries it. -/
theorem transcribe_language_spec_witness :
    exR.language = ("en").toList :=
  (transcribe_language_spec defaultSettings exLoader exW exEngine exFS exPath
    exR exRun.2.1 exRun.2.2 rfl).1 (("en").toList) rfl

/-- C10: the derived output path depends only on the input's basename stem,
so converting a second input with the same stem writes over the first
conversion's output. -/
theorem convert_to_wav_output_stem_only (s : Settings) (p1 p2 : Str)
    (hstem : (splitext (basename p1)).1 = (splitext (basename p2)).1)
    (fs fs1 fs2 : FS) (out1 out2 : Str) (a : Audio)
    (h1 : convert_to_wav s fs p1 = (.ok out1, fs1))
    (hread : fs1.read p2 = some (.audio a))
    (h2 : convert_to_wav s fs1 p2 = (.ok out2, fs2)) :
    out2 = out1
    ∧ fs2.read out1 =
        some (.audio { channels := 1, frame_rate := 16000, data := a.data }) := by
  obtain ⟨hcp1, -⟩ := convert_ok_inv s fs p1 out1 fs1 h1
  obtain ⟨hcp2, a', hread', hfs2⟩ := convert_ok_inv s fs1 p2 out2 fs2 h2
  have hpath : output_path_for s p2 = output_path_for s p1 := by
    unfold output_path_for
    rw [hstem]
  have ha : a' = a := by
    have hsame := hread'.symm.trans hread
    simpa using hsame
  subst hcp1
  subst hcp2
  refine ⟨hpath, ?_⟩
  rw [hfs2, ← hpath, FS.read_write_self, ha]

/-- C10 input file system: two inputs with the same stem `x`. -/
def exFS10 : FS :=
  { files :=
      [ (("a/x.mp3").toList, .audio { channels := 2, frame_rate := 44100, data := 1 })
      , (("b/x.wav").toList, .audio { channels := 1, frame_rate := 8000, data := 2 }) ]
    dirs := [] }

def exFS10a : FS := (convert_to_wav defaultSettings exFS10 (("a/x.mp3").toList)).2

def exFS10b : FS := (convert_to_wav defaultSettings exFS10a (("b/x.wav").toList)).2

/-- C10 witness: `a/x.mp3` and `b/x.wav` derive the same output path, and
the second conversion's output has replaced the first's. -/
theorem convert_to_wav_output_stem_only_witness :
    output_path_for defaultSettings (("b/x.wav").toList) =
      output_path_for defaultSettings (("a/x.mp3").toList)
    ∧ exFS10b.read (output_path_for defaultSettings (("a/x.mp3").toList)) =
        some (.audio { channels := 1, frame_rate := 16000, data := 2 }) :=
  convert_to_wav_output_stem_only defaultSettings (("a/x.mp3").toList)
    (("b/x.wav").toList) (by decide) exFS10 exFS10a exFS10b
    (output_path_for defaultSettings (("a/x.mp3").toList))
    (output_path_for defaultSettings (("b/x.wav").toList))
    { channels := 1, frame_rate := 8000, data := 2 } rfl (by decide) rfl

end NeuralNotes
